import Mathlib

/-!
Verification of the hallucination-auditor script (src/audit.py).

The script is embedded shallowly over `List Char`:
* `matchLen1` embeds the backtracking search of the Rule-1 regular expression
  at one position, including the negative lookbehind for a preceding opening
  bracket and the trailing negative lookahead for a closing bracket;
* `matchLen2` embeds the Rule-2 alternation (path:line, empty-call, the
  literal unwrap-call and prost-namespace tokens);
* `scanGoF` embeds the iterator semantics: a left-to-right scan producing
  non-overlapping, leftmost matches, resuming after each match;
* `typeOf`, `contextCell`, `mainOut` and `program` embed the categorization,
  the context-window rendering, the report and the command-line wrapper.

Character classes are modelled over ASCII, which covers all inputs the
specification discusses.
-/

set_option maxRecDepth 100000

namespace Audit

/-- ASCII decimal digit, the class matched by a digit atom of the pattern. -/
def isDigitC (c : Char) : Bool := c.isDigit

/-- ASCII whitespace, the class matched by a whitespace atom of the pattern
and the set stripped by the report formatting. -/
def isWSC (c : Char) : Bool :=
  c == ' ' || c == '\t' || c == '\n' || c == '\r' || c == '\x0B' || c == '\x0C'

/-- ASCII word character, used by the word-boundary assertions of Rule 2. -/
def isWordC (c : Char) : Bool := c.isAlpha || c.isDigit || c == '_'

/-- Character admitted by the path-token class of Rule 2. -/
def isPathC (c : Char) : Bool := c.isAlpha || c.isDigit || c == '_' || c == '/'

/-- Character admitted by the identifier class of Rule 2. -/
def isLowC (c : Char) : Bool := ('a' ≤ c && c ≤ 'z') || c == '_'

/-- Boolean test that `pat` is a leading piece of `s`. -/
def isPre : List Char → List Char → Bool
  | [], _ => true
  | _ :: _, [] => false
  | a :: as, b :: bs => if a = b then isPre as bs else false

/-- Length of the longest run of characters satisfying `p` at the head. -/
def countLeading (p : Char → Bool) (s : List Char) : Nat :=
  (s.takeWhile p).length

/-- The list `[n, n-1, ..., 1]`: greedy order for a one-or-more repetition. -/
def descToOne (n : Nat) : List Nat :=
  (List.range n).reverse.map (fun k => k + 1)

/-- The list `[n, n-1, ..., 0]`: greedy order for a zero-or-more repetition. -/
def descToZero (n : Nat) : List Nat :=
  (List.range (n + 1)).reverse

/-- Consumption choices of the optional-whitespace atom, greedy first. -/
def wsCands (s : List Char) : List Nat :=
  match s with
  | c :: _ => if isWSC c then [1, 0] else [0]
  | [] => [0]

/-- Candidate lengths of a literal unit alternative. -/
def strCands (pat : List Char) (n : Nat) (s : List Char) : List Nat :=
  if isPre pat s then [n] else []

/-- Candidate lengths of the line-number unit alternative
(the literal line word, optional whitespace, one or more digits),
in the engine's backtracking order. -/
def lineCands (s : List Char) : List Nat :=
  if isPre ['l', 'i', 'n', 'e'] s then
    (wsCands (s.drop 4)).flatMap (fun w =>
      (descToOne (countLeading isDigitC (s.drop (4 + w)))).map (fun dl => 4 + w + dl))
  else []

/-- Candidate lengths of the Rule-1 unit alternation at the head of `s`,
in the engine's preference order. -/
def altCands (s : List Char) : List Nat :=
  (if isPre ['b', 'y', 't', 'e', 's'] s then [5, 4]
   else if isPre ['b', 'y', 't', 'e'] s then [4] else [])
  ++ strCands ['B'] 1 s
  ++ strCands ['K', 'B'] 2 s
  ++ strCands ['M', 'B'] 2 s
  ++ strCands ['G', 'B'] 2 s
  ++ strCands ['m', 's'] 2 s
  ++ strCands ['s'] 1 s
  ++ lineCands s
  ++ strCands ['r', 'o', 'w'] 3 s
  ++ strCands ['r', 'o', 'w', 's'] 4 s
  ++ strCands ['d', 'u', 'p', 'l', 'i', 'c', 'a', 't', 'e'] 9 s

/-- Candidate total lengths once digits, comma-digit run and whitespace have
consumed `k`, `mm` and `w` characters and the unit alternation faces `s3`. -/
def stage3 (k mm w : Nat) (s3 : List Char) : List Nat :=
  (altCands s3).map (fun a => k + mm + w + a)

/-- Candidate total lengths once digits and the comma-digit run have consumed
`k` and `mm` characters and the optional whitespace faces `s2`. -/
def stage2 (k mm : Nat) (s2 : List Char) : List Nat :=
  (wsCands s2).flatMap (fun w => stage3 k mm w (s2.drop w))

/-- Candidate total lengths once the digits have consumed `k` characters and
the comma-digit run faces `s1`. -/
def stage1 (k : Nat) (s1 : List Char) : List Nat :=
  (descToZero (countLeading (fun c => isDigitC c || c == ',') s1)).flatMap
    (fun mm => stage2 k mm (s1.drop mm))

/-- All candidate total lengths of a Rule-1 match at the head of `s`, in the
engine's backtracking order: one-to-four digits (greedy), then a run of
commas and digits (greedy), then optional whitespace (greedy), then the
unit alternation. -/
def cands (s : List Char) : List Nat :=
  (descToOne (min 4 (countLeading isDigitC s))).flatMap (fun k => stage1 k (s.drop k))

/-- The trailing negative lookahead of Rule 1: succeeds unless a closing
bracket occurs in `s` before any opening bracket. -/
def lookA (s : List Char) : Bool :=
  (s.takeWhile (fun c => c != '[')).all (fun c => c != ']')

/-- Rule-1 match attempt at one position: `prev` is the character before the
position (none at the start of the text); the result is the length of the
match found there, if any.  The negative lookbehind rejects a position
directly after an opening bracket; the first candidate parse whose trailing
lookahead succeeds wins. -/
def matchLen1 (prev : Option Char) (s : List Char) : Option Nat :=
  if prev == some '[' then none
  else (cands s).find? (fun L => lookA (s.drop L))

/-- First Rule-2 alternative: a run of path characters, a literal dot-r-s-colon
sequence, then one or more digits; the class run backtracks from longest. -/
def alt1Len (s : List Char) : Option Nat :=
  (descToOne (countLeading isPathC s)).findSome? (fun k =>
    if isPre ['.', 'r', 's', ':'] (s.drop k) then
      let dl := countLeading isDigitC (s.drop (k + 4))
      if dl = 0 then none else some (k + 4 + dl)
    else none)

/-- Second Rule-2 alternative: a run of lowercase-or-underscore characters
followed by empty call parentheses. -/
def alt2Len (s : List Char) : Option Nat :=
  (descToOne (countLeading isLowC s)).findSome? (fun k =>
    if isPre ['(', ')'] (s.drop k) then some (k + 2) else none)

/-- Word-boundary assertion before a word character: holds at the start of the
text or after a non-word character. -/
def boundaryB (prev : Option Char) : Bool :=
  match prev with
  | none => true
  | some c => !(isWordC c)

/-- Rule-2 match attempt at one position, trying the four alternatives in the
pattern's order. -/
def matchLen2 (prev : Option Char) (s : List Char) : Option Nat :=
  match alt1Len s with
  | some L => some L
  | none =>
    match alt2Len s with
    | some L => some L
    | none =>
      if boundaryB prev && isPre ['u', 'n', 'w', 'r', 'a', 'p', '(', ')'] s then some 8
      else if boundaryB prev && isPre ['p', 'r', 'o', 's', 't', ':', ':'] s then some 7
      else none

/-- Iterator scan: walk the text left to right, at each position attempt a
match; on success emit the span and resume after it, otherwise advance one
character.  `fuel` is a structural bound on the number of steps. -/
def scanGoF (m : Option Char → List Char → Option Nat) :
    Nat → List Char → Nat → Option Char → List (Nat × Nat)
  | 0, _, _, _ => []
  | _ + 1, [], _, _ => []
  | fuel + 1, c :: cs, pos, prev =>
    match m prev (c :: cs) with
    | some L =>
      (pos, pos + L) ::
        scanGoF m fuel ((c :: cs).drop (max L 1)) (pos + max L 1) ((c :: cs)[max L 1 - 1]?)
    | none => scanGoF m fuel cs (pos + 1) (some c)

/-- All Rule-1 matches of a text, as start-end offset pairs. -/
def rule1Matches (t : List Char) : List (Nat × Nat) :=
  scanGoF matchLen1 (t.length + 1) t 0 none

/-- All Rule-2 matches of a text, as start-end offset pairs. -/
def rule2Matches (t : List Char) : List (Nat × Nat) :=
  scanGoF matchLen2 (t.length + 1) t 0 none

/-- The matched substring of a span. -/
def sliceM (t : List Char) (m : Nat × Nat) : List Char :=
  (t.drop m.1).take (m.2 - m.1)

/-- All matches in report order: Rule-1 matches first, then Rule-2 matches. -/
def allIssues (t : List Char) : List (Nat × Nat) :=
  rule1Matches t ++ rule2Matches t

/-- Boolean substring test, embedding the containment test of the report. -/
def hasSub (g pat : List Char) : Bool :=
  (List.range (g.length + 1)).any (fun i => isPre pat (g.drop i))

/-- Category assigned to a matched substring by the report. -/
def typeOf (g : List Char) : String :=
  if hasSub g ['l', 'i', 'n', 'e'] || hasSub g ['r', 'o', 'w'] then "Line/Reference"
  else "Number/Unit"

/-- Strip leading and trailing whitespace, embedding the strip call. -/
def pyStrip (s : List Char) : List Char :=
  ((s.dropWhile isWSC).reverse.dropWhile isWSC).reverse

/-- The context cell rendered for a match spanning `a` to `b`: thirty
characters of context on each side clamped to the text, newlines replaced
by spaces, stripped, truncated to 120 characters, ellipsis appended. -/
def contextCell (t : List Char) (a b : Nat) : List Char :=
  (pyStrip (((t.drop (a - 30)).take (min t.length (b + 30) - (a - 30))).map
    (fun c => if c == '\n' then ' ' else c))).take 120 ++ ['.', '.', '.']

/-- The rows of the report table, one per match in report order. -/
def tableRows (t : List Char) : List (String × List Char × List Char) :=
  (allIssues t).map (fun m => (typeOf (sliceM t m), sliceM t m, contextCell t m.1 m.2))

/-- One printed item of the program's output. -/
inductive OutItem : Type
  | styled (text : String) (style : String)
  | table (title : String) (rows : List (String × List Char × List Char))
  | traceback (msg : String)
deriving DecidableEq

/-- The clean-scan success message. -/
def cleanMsg : String := "✅ Clean – no obvious hallucinations detected"

/-- The failure-styled summary line for a given match count. -/
def summaryMsg (n : Nat) : String :=
  "\nFound " ++ toString n ++ " potential hallucinations. Fix or flag before publishing."

/-- The usage message printed on a malformed invocation. -/
def usageMsg : String := "Usage: python audit.py <markdown-file>"

/-- The output of the scan-and-report pass on a loaded text. -/
def mainOut (t : List Char) : List OutItem :=
  if (allIssues t).isEmpty then [OutItem.styled cleanMsg "bold green"]
  else
    [OutItem.table "Hallucination Alerts 🔥" (tableRows t),
     OutItem.styled (summaryMsg (allIssues t).length) "bold red"]

/-- The whole process: exit code and printed items, given the argument list
and the file-reading primitive.  A wrong argument count prints the usage
message and exits with code one; a failing file read propagates as an
uncaught error, aborting with a nonzero exit and the diagnostic before any
scan output; a completed scan exits with code zero. -/
def program (args : List String) (readF : String → Except String String) :
    Nat × List OutItem :=
  match args with
  | [p] =>
    match readF p with
    | Except.ok txt => (0, mainOut txt.toList)
    | Except.error e => (1, [OutItem.traceback e])
  | _ => (1, [OutItem.styled usageMsg "bold"])

/-! ### Basic list lemmas -/

theorem drop_len_add (a b : List Char) (n : Nat) :
    (a ++ b).drop (a.length + n) = b.drop n := by
  induction a with
  | nil => simp
  | cons c a' ih =>
    have : (c :: a').length + n = (a'.length + n) + 1 := by simp; omega
    rw [this]
    simpa using ih

theorem take_len_add (a b : List Char) (n : Nat) :
    (a ++ b).take (a.length + n) = a ++ b.take n := by
  induction a with
  | nil => simp
  | cons c a' ih =>
    have : (c :: a').length + n = (a'.length + n) + 1 := by simp; omega
    rw [this]
    simpa using ih

theorem countLeading_app (p : Char → Bool) (a b : List Char)
    (h : ∀ c ∈ a, p c = true) :
    countLeading p (a ++ b) = a.length + countLeading p b := by
  induction a with
  | nil => simp
  | cons c a' ih =>
    have hc : p c = true := h c (by simp)
    have ih' := ih (fun x hx => h x (by simp [hx]))
    simp only [countLeading, List.cons_append, List.takeWhile_cons, hc] at *
    simp [ih']
    omega

theorem countLeading_head_false (p : Char → Bool) (c : Char) (cs : List Char)
    (h : p c = false) : countLeading p (c :: cs) = 0 := by
  simp [countLeading, List.takeWhile_cons, h]

theorem descToOne_succ (n : Nat) : descToOne (n + 1) = (n + 1) :: descToOne n := by
  simp [descToOne, List.range_succ]

theorem descToZero_cons (n : Nat) : descToZero n = n :: (List.range n).reverse := by
  simp [descToZero, List.range_succ]

/-- The character before the scan position after skipping over `p`. -/
def prevAfter (prev : Option Char) (p : List Char) : Option Char :=
  match p.getLast? with
  | some c => some c
  | none => prev

theorem prevAfter_nil (prev : Option Char) : prevAfter prev [] = prev := rfl

theorem prevAfter_cons (prev : Option Char) (c : Char) (p' : List Char) :
    prevAfter prev (c :: p') = prevAfter (some c) p' := by
  cases p' with
  | nil => simp [prevAfter]
  | cons x xs =>
    simp only [prevAfter, List.getLast?_cons_cons]
    cases hx : (x :: xs).getLast? with
    | none => simp at hx
    | some y => rfl

theorem prevAfter_none (p : List Char) : prevAfter none p = p.getLast? := by
  cases h : p.getLast? <;> simp [prevAfter, h]

/-! ### Rule-1 scan lemmas -/

theorem matchLen1_nonDigit (prev : Option Char) (c : Char) (cs : List Char)
    (h : isDigitC c = false) : matchLen1 prev (c :: cs) = none := by
  have hc : countLeading isDigitC (c :: cs) = 0 := countLeading_head_false _ _ _ h
  simp [matchLen1, cands, hc, descToOne]

theorem scan_nil (s : List Char) (h : ∀ c ∈ s, isDigitC c = false) :
    ∀ fuel pos prev, scanGoF matchLen1 fuel s pos prev = [] := by
  induction s with
  | nil => intro fuel pos prev; cases fuel <;> rfl
  | cons c cs ih =>
    intro fuel pos prev
    cases fuel with
    | zero => rfl
    | succ f =>
      have hc : matchLen1 prev (c :: cs) = none :=
        matchLen1_nonDigit prev c cs (h c (by simp))
      simp only [scanGoF, hc]
      exact ih (fun x hx => h x (by simp [hx])) f (pos + 1) (some c)

theorem scan_skip (p : List Char) (rest : List Char)
    (hp : ∀ c ∈ p, isDigitC c = false) :
    ∀ fuel pos prev, p.length ≤ fuel →
      scanGoF matchLen1 fuel (p ++ rest) pos prev =
        scanGoF matchLen1 (fuel - p.length) rest (pos + p.length) (prevAfter prev p) := by
  induction p with
  | nil => intro fuel pos prev _; simp [prevAfter_nil]
  | cons c p' ih =>
    intro fuel pos prev hf
    cases fuel with
    | zero => simp at hf
    | succ f =>
      have hc : matchLen1 prev (c :: (p' ++ rest)) = none :=
        matchLen1_nonDigit prev c _ (hp c (by simp))
      simp only [List.cons_append, scanGoF, List.append_eq, hc]
      have ih' := ih (fun x hx => hp x (by simp [hx])) f (pos + 1) (some c)
        (by simp at hf; omega)
      rw [ih', prevAfter_cons]
      congr 1 <;> simp <;> omega

/-! ### The unit alternation at an isolated occurrence -/

/-- The unit words for which the alternation match is the unit itself,
whatever text follows: each is matched by its own alternative, no earlier
alternative can fire, and no longer variant can absorb following text. -/
def safeUnits : List (List Char) :=
  [['b', 'y', 't', 'e', 's'], ['B'], ['K', 'B'], ['M', 'B'], ['G', 'B'],
   ['m', 's'], ['s'], ['r', 'o', 'w'],
   ['d', 'u', 'p', 'l', 'i', 'c', 'a', 't', 'e']]

theorem unit_head (u : List Char) (hu : u ∈ safeUnits) :
    ∃ c cs, u = c :: cs ∧ isDigitC c = false ∧ isWSC c = false ∧
      (isDigitC c || c == ',') = false := by
  simp only [safeUnits, List.mem_cons, List.not_mem_nil, or_false] at hu
  rcases hu with h | h | h | h | h | h | h | h | h <;> subst h <;>
    exact ⟨_, _, rfl, by decide, by decide, by decide⟩

theorem altCands_head (u : List Char) (hu : u ∈ safeUnits) (q : List Char) :
    ∃ tl, altCands (u ++ q) = u.length :: tl := by
  simp only [safeUnits, List.mem_cons, List.not_mem_nil, or_false] at hu
  rcases hu with h | h | h | h | h | h | h | h | h <;> subst h <;>
    simp [altCands, strCands, lineCands, isPre]

theorem exists_cons_of_head (A B : Nat) (x : List Nat) (h : A = B) :
    ∃ tl, (A :: x) = B :: tl := ⟨x, by rw [h]⟩

theorem lookA_of_noClose (q : List Char) (hq : ∀ c ∈ q, c ≠ ']') :
    lookA q = true := by
  simp only [lookA, List.all_eq_true]
  intro c hc
  have : c ∈ q := (List.takeWhile_sublist _).subset hc
  simpa using hq c this

theorem stage3_head (k mm w : Nat) (u q : List Char) (hu : u ∈ safeUnits) :
    ∃ tl, stage3 k mm w (u ++ q) = (k + mm + w + u.length) :: tl := by
  obtain ⟨t0, h0⟩ := altCands_head u hu q
  simp [stage3, h0]

theorem stage2_head_nosep (k mm : Nat) (u q : List Char) (hu : u ∈ safeUnits) :
    ∃ tl, stage2 k mm (u ++ q) = (k + mm + 0 + u.length) :: tl := by
  obtain ⟨c0, cs0, hueq, hc1, hc2, hc3⟩ := unit_head u hu
  have hws : wsCands (u ++ q) = [0] := by
    rw [hueq, List.cons_append]
    simp [wsCands, hc2]
  obtain ⟨t0, h0⟩ := stage3_head k mm 0 u q hu
  simp [stage2, hws, h0]

theorem stage2_head_sep (k mm : Nat) (u q : List Char) (hu : u ∈ safeUnits) :
    ∃ tl, stage2 k mm (' ' :: (u ++ q)) = (k + mm + 1 + u.length) :: tl := by
  have hws : wsCands (' ' :: (u ++ q)) = [1, 0] := by
    simp [wsCands, isWSC]
  obtain ⟨t0, h0⟩ := stage3_head k mm 1 u q hu
  simp [stage2, hws, h0]

theorem stage1_head (k : Nat) (g sep u q : List Char)
    (hgall : ∀ c ∈ g, (isDigitC c || c == ',') = true)
    (hsep : sep = [] ∨ sep = [' '])
    (hu : u ∈ safeUnits) :
    ∃ tl, stage1 k (g ++ (sep ++ (u ++ q))) =
      (k + g.length + sep.length + u.length) :: tl := by
  obtain ⟨c0, cs0, hueq, hc1, hc2, hc3⟩ := unit_head u hu
  rcases hsep with rfl | rfl
  · simp only [List.nil_append, List.length_nil]
    have hcd : countLeading (fun c => isDigitC c || c == ',') (g ++ (u ++ q)) =
        g.length := by
      rw [countLeading_app _ _ _ hgall, hueq, List.cons_append,
        countLeading_head_false _ _ _ (by simp [hc3])]
      omega
    obtain ⟨t0, h0⟩ := stage2_head_nosep k g.length u q hu
    simp only [stage1, hcd, descToZero_cons, List.flatMap_cons,
      List.drop_left, h0, List.cons_append]
    apply exists_cons_of_head
    simp
  · simp only [List.singleton_append, List.length_singleton]
    have hcd : countLeading (fun c => isDigitC c || c == ',') (g ++ (' ' :: (u ++ q))) =
        g.length := by
      rw [countLeading_app _ _ _ hgall,
        countLeading_head_false _ _ _ (by decide)]
      omega
    obtain ⟨t0, h0⟩ := stage2_head_sep k g.length u q hu
    simp only [stage1, hcd, descToZero_cons, List.flatMap_cons,
      List.drop_left, h0, List.cons_append]
    apply exists_cons_of_head
    simp

theorem cands_head (d g sep u q : List Char)
    (hd1 : d ≠ []) (hd4 : d.length ≤ 4)
    (hdall : ∀ c ∈ d, isDigitC c = true)
    (hgall : ∀ c ∈ g, (isDigitC c || c == ',') = true)
    (hg : g = [] ∨ ∃ g', g = ',' :: g')
    (hsep : sep = [] ∨ sep = [' '])
    (hu : u ∈ safeUnits) :
    ∃ tl, cands (d ++ (g ++ (sep ++ (u ++ q)))) =
      (d.length + g.length + sep.length + u.length) :: tl := by
  obtain ⟨c0, cs0, hueq, hc1, hc2, hc3⟩ := unit_head u hu
  obtain ⟨a, as, rfl⟩ : ∃ a as, d = a :: as := by
    cases d with
    | nil => exact absurd rfl hd1
    | cons a as => exact ⟨a, as, rfl⟩
  -- the head of whatever follows the digits is not a digit
  have hsu_digit : countLeading isDigitC (sep ++ (u ++ q)) = 0 := by
    rcases hsep with rfl | rfl
    · rw [hueq, List.nil_append, List.cons_append]
      exact countLeading_head_false _ _ _ hc1
    · exact countLeading_head_false _ _ _ (by decide)
  have h1 : countLeading isDigitC (g ++ (sep ++ (u ++ q))) = 0 := by
    rcases hg with rfl | ⟨g', rfl⟩
    · simpa using hsu_digit
    · rw [List.cons_append]
      exact countLeading_head_false _ _ _ (by decide)
  -- the digit run is exactly the digit block
  have hdr : countLeading isDigitC (a :: (as ++ (g ++ (sep ++ (u ++ q))))) =
      as.length + 1 := by
    have h2 := countLeading_app isDigitC (a :: as) (g ++ (sep ++ (u ++ q))) hdall
    simp only [List.cons_append, List.length_cons] at h2
    rw [h2, h1]
  have hmin : min 4 (as.length + 1) = as.length + 1 :=
    Nat.min_eq_right (by simpa using hd4)
  have hdrop1 : (a :: (as ++ (g ++ (sep ++ (u ++ q))))).drop (as.length + 1) =
      g ++ (sep ++ (u ++ q)) := by
    rw [List.drop_succ_cons, List.drop_left]
  obtain ⟨t0, h0⟩ := stage1_head (as.length + 1) g sep u q hgall hsep hu
  simp only [List.cons_append]
  simp only [cands, hdr, hmin, descToOne_succ, List.flatMap_cons, hdrop1, h0,
    List.cons_append]
  apply exists_cons_of_head
  simp

/-- At the start of an isolated occurrence, the Rule-1 matcher finds exactly
the occurrence: the digits, the comma-digit groups, the optional space and
the unit word. -/
theorem matchLen1_occ (d g sep u q : List Char) (prev : Option Char)
    (hprev : prev ≠ some '[')
    (hd1 : d ≠ []) (hd4 : d.length ≤ 4)
    (hdall : ∀ c ∈ d, isDigitC c = true)
    (hgall : ∀ c ∈ g, (isDigitC c || c == ',') = true)
    (hg : g = [] ∨ ∃ g', g = ',' :: g')
    (hsep : sep = [] ∨ sep = [' '])
    (hu : u ∈ safeUnits)
    (hq : ∀ c ∈ q, c ≠ ']') :
    matchLen1 prev (d ++ (g ++ (sep ++ (u ++ q)))) =
      some (d.length + g.length + sep.length + u.length) := by
  obtain ⟨rest, hrest⟩ := cands_head d g sep u q hd1 hd4 hdall hgall hg hsep hu
  have hlook : lookA ((d ++ (g ++ (sep ++ (u ++ q)))).drop
      (d.length + g.length + sep.length + u.length)) = true := by
    have hdq : (d ++ (g ++ (sep ++ (u ++ q)))).drop
        (d.length + g.length + sep.length + u.length) = q := by
      rw [show d.length + g.length + sep.length + u.length =
          d.length + (g.length + (sep.length + (u.length + 0))) by omega]
      rw [drop_len_add, drop_len_add, drop_len_add, drop_len_add, List.drop_zero]
    rw [hdq]
    exact lookA_of_noClose q hq
  have hbeq : (prev == some '[') = false := by
    simpa using hprev
  simp only [matchLen1]
  rw [if_neg (by simp [hbeq]), hrest]
  exact List.find?_cons_of_pos _ hlook

theorem drop_occ (d g sep u q : List Char) :
    (d ++ (g ++ (sep ++ (u ++ q)))).drop
      (d.length + g.length + sep.length + u.length) = q := by
  rw [show d.length + g.length + sep.length + u.length =
      d.length + (g.length + (sep.length + (u.length + 0))) by omega]
  rw [drop_len_add, drop_len_add, drop_len_add, drop_len_add, List.drop_zero]

/-- A text consisting of an isolated Rule-1 occurrence — digits, comma-digit
groups, optional space, a safe unit word — between a digit-free piece not
ending in an opening bracket and a digit-free piece with no closing bracket
produces exactly one Rule-1 match, spanning exactly the occurrence. -/
theorem rule1_isolated (p d g sep u q : List Char)
    (hp : ∀ c ∈ p, isDigitC c = false) (hpLast : p.getLast? ≠ some '[')
    (hd1 : d ≠ []) (hd4 : d.length ≤ 4)
    (hdall : ∀ c ∈ d, isDigitC c = true)
    (hgall : ∀ c ∈ g, (isDigitC c || c == ',') = true)
    (hg : g = [] ∨ ∃ g', g = ',' :: g')
    (hsep : sep = [] ∨ sep = [' '])
    (hu : u ∈ safeUnits)
    (hq : ∀ c ∈ q, isDigitC c = false ∧ c ≠ ']') :
    rule1Matches (p ++ (d ++ (g ++ (sep ++ (u ++ q))))) =
      [(p.length, p.length + (d.length + g.length + sep.length + u.length))] := by
  have hq1 : ∀ c ∈ q, isDigitC c = false := fun c hc => (hq c hc).1
  have hq2 : ∀ c ∈ q, c ≠ ']' := fun c hc => (hq c hc).2
  obtain ⟨a, as, rfl⟩ : ∃ a as, d = a :: as := by
    cases d with
    | nil => exact absurd rfl hd1
    | cons a as => exact ⟨a, as, rfl⟩
  have hm := matchLen1_occ (a :: as) g sep u q p.getLast? hpLast hd1 hd4 hdall
    hgall hg hsep hu hq2
  have hL1 : 1 ≤ (a :: as).length + g.length + sep.length + u.length := by
    simp only [List.length_cons]
    omega
  have hmax : max ((a :: as).length + g.length + sep.length + u.length) 1 =
      (a :: as).length + g.length + sep.length + u.length := Nat.max_eq_left hL1
  have hdropR := drop_occ (a :: as) g sep u q
  have hskip := scan_skip p ((a :: as) ++ (g ++ (sep ++ (u ++ q)))) hp
    ((p ++ ((a :: as) ++ (g ++ (sep ++ (u ++ q))))).length + 1) 0 none
    (by simp only [List.length_append]; omega)
  have hfuel : ((p ++ ((a :: as) ++ (g ++ (sep ++ (u ++ q))))).length + 1) - p.length =
      ((a :: as) ++ (g ++ (sep ++ (u ++ q)))).length + 1 := by
    simp only [List.length_append]
    omega
  simp only [rule1Matches]
  rw [hskip, hfuel, prevAfter_none, Nat.zero_add]
  simp only [List.cons_append, List.length_cons] at hm hdropR hmax ⊢
  simp only [scanGoF, hm, hmax, hdropR, scan_nil q hq1]

/-- Every span the scan emits comes from a successful match attempt at its
start position, against the suffix there and the true preceding character. -/
theorem scan_mem (f : Option Char → List Char → Option Nat) (t : List Char) :
    ∀ fuel pos prev m, prev = (if pos = 0 then none else t[pos - 1]?) →
      m ∈ scanGoF f fuel (t.drop pos) pos prev →
      ∃ L, m.2 = m.1 + L ∧
        f (if m.1 = 0 then none else t[m.1 - 1]?) (t.drop m.1) = some L := by
  intro fuel
  induction fuel with
  | zero =>
    intro pos prev m _ hm
    simp [scanGoF] at hm
  | succ fu ih =>
    intro pos prev m hprev hm
    cases hs : t.drop pos with
    | nil =>
      rw [hs] at hm
      simp [scanGoF] at hm
    | cons c cs =>
      rw [hs] at hm
      have hc : t[pos]? = some c := by
        have h0 : (t.drop pos)[0]? = some c := by rw [hs]; simp
        rw [List.getElem?_drop] at h0
        simpa using h0
      simp only [scanGoF] at hm
      cases hf : f prev (c :: cs) with
      | none =>
        rw [hf] at hm
        have hcs : t.drop (pos + 1) = cs := by
          have h1 := List.drop_drop 1 pos t
          rw [hs] at h1
          simpa using h1.symm
        refine ih (pos + 1) (some c) m ?_ (by rw [hcs]; exact hm)
        simp [hc]
      | some L =>
        rw [hf] at hm
        rcases List.mem_cons.mp hm with hm1 | hm2
        · subst hm1
          refine ⟨L, rfl, ?_⟩
          rw [← hprev, hs]
          exact hf
        · have hdrop : (c :: cs).drop (max L 1) = t.drop (pos + max L 1) := by
            rw [← hs, List.drop_drop]
          have hget : (c :: cs)[max L 1 - 1]? = t[pos + (max L 1 - 1)]? := by
            rw [← hs, List.getElem?_drop]
          rw [hdrop, hget] at hm2
          refine ih (pos + max L 1) (t[pos + (max L 1 - 1)]?) m ?_ hm2
          rw [if_neg (by omega)]
          have hidx : pos + (max L 1 - 1) = pos + max L 1 - 1 := by omega
          rw [hidx]

/-- Every Rule-1 match respects both bracket lookarounds: its start is not
directly after an opening bracket, and no closing bracket follows its end
before an opening bracket does. -/
theorem rule1_match_lookaround (t : List Char) (m : Nat × Nat)
    (hm : m ∈ rule1Matches t) :
    (m.1 = 0 ∨ t[m.1 - 1]? ≠ some '[') ∧
      ∀ c ∈ (t.drop m.2).takeWhile (fun c => c != '['), c ≠ ']' := by
  have h := scan_mem matchLen1 t (t.length + 1) 0 none m (by simp) hm
  obtain ⟨L, hL, hml⟩ := h
  have hnb : ¬ ((if m.1 = 0 then none else t[m.1 - 1]?) = some '[') := by
    intro hx
    simp only [matchLen1, hx] at hml
    simp at hml
  have hlook : lookA (t.drop m.2) = true := by
    simp only [matchLen1] at hml
    cases hb : ((if m.1 = 0 then none else t[m.1 - 1]?) == some '[') with
    | true =>
      rw [hb] at hml
      simp at hml
    | false =>
      rw [hb] at hml
      rw [if_neg (by simp)] at hml
      have hfind := List.find?_some hml
      rw [hL, ← List.drop_drop]
      exact hfind
  constructor
  · by_cases h0 : m.1 = 0
    · exact Or.inl h0
    · rw [if_neg h0] at hnb
      exact Or.inr hnb
  · intro c hc
    simp only [lookA, List.all_eq_true] at hlook
    simpa using hlook c hc

/-! ### Spec-side definitions for refinement comparisons -/

/-- Categorization written from the specification's (amended) words: a match
is labeled Line/Reference when its matched substring contains the substring
line or the substring row, Number/Unit otherwise. -/
def specCategory (g : List Char) : String :=
  if hasSub g ['l', 'i', 'n', 'e'] || hasSub g ['r', 'o', 'w'] then "Line/Reference"
  else "Number/Unit"

/-- Word-occurrence test: the letters r-o-w occur delimited on both sides by
a non-word character or an end of the string.  This is the reading of claim
C4, which speaks of the word row rather than the substring row. -/
def hasWordRow (g : List Char) : Bool :=
  (List.range (g.length + 1)).any (fun i =>
    isPre ['r', 'o', 'w'] (g.drop i) &&
    (decide (i = 0) || !(isWordC (g.getD (i - 1) ' '))) &&
    (decide (i + 3 = g.length) || !(isWordC (g.getD (i + 3) ' '))))

/-- The categorization exactly as claim C4 states it: Line/Reference when the
matched substring contains the substring line or the word row. -/
def claimedCategory (g : List Char) : String :=
  if hasSub g ['l', 'i', 'n', 'e'] || hasWordRow g then "Line/Reference"
  else "Number/Unit"

/-- Context cell written from the specification's words: the window from
thirty characters before the match start to thirty after the match end,
clamped to the text bounds, newlines replaced by spaces, stripped, truncated
to 120 characters, with the ellipsis marker appended in every case. -/
def specContext (t : List Char) (a b : Nat) : List Char :=
  ((pyStrip (((t.take (min t.length (b + 30))).drop (a - 30)).map
    (fun c => if c == '\n' then ' ' else c))).take 120) ++ ['.', '.', '.']

/-- The matched text of an isolated occurrence is the occurrence itself. -/
theorem slice_isolated (p d g sep u q : List Char) :
    sliceM (p ++ (d ++ (g ++ (sep ++ (u ++ q)))))
      (p.length, p.length + (d.length + g.length + sep.length + u.length)) =
      d ++ (g ++ (sep ++ u)) := by
  simp only [sliceM]
  rw [List.drop_left]
  rw [show p.length + (d.length + g.length + sep.length + u.length) - p.length =
    d.length + (g.length + (sep.length + (u.length + 0))) by omega]
  rw [take_len_add, take_len_add, take_len_add, take_len_add, List.take_zero,
    List.append_nil]

/-! ### The claims -/

/-- C1, counterexample: in the input made of the specification's own example
followed by one stray closing bracket, the digit run 1500 is followed by the
unit word bytes and is not enclosed in square brackets — there is no opening
bracket anywhere in the text — yet the scanner produces no match at all,
because the trailing lookahead rejects any text with a closing bracket after
the match and no opening bracket in between.  Moreover, for the unit rows the
produced match never covers the unit word: on the input 5 rows the single
match is 5 row. -/
theorem C1_counterexample :
    ('[' ∉ "Processed 1500 bytes total]".toList) ∧
    ((("Processed 1500 bytes total]".toList.drop 10).take 10 = "1500 bytes".toList) ∧
      rule1Matches "Processed 1500 bytes total]".toList = []) ∧
    (rule1Matches "5 rows".toList = [(0, 5)] ∧
      sliceM "5 rows".toList (0, 5) = "5 row".toList) := by
  decide

/-- C1 (amended): for every text made of an isolated occurrence — a run of 1
to 4 digits, optional comma-or-digit groups, an optional space and one of the
unit words bytes, B, KB, MB, GB, ms, s, row, duplicate — preceded by a
digit-free prefix not ending in an opening bracket and followed by a
digit-free suffix containing no closing bracket, the scanner produces exactly
one match, and that match covers exactly the digit run, the groups, the space
and the unit.  (The stray-bracket counterexample forces the bracket-free
conditions on the suffix; the units byte, rows and line-number are excluded
because there the matched text differs from the occurrence's unit word.) -/
theorem C1_amended_isolated_occurrence (p d g sep u q : List Char)
    (hp : ∀ c ∈ p, isDigitC c = false) (hpLast : p.getLast? ≠ some '[')
    (hd1 : d ≠ []) (hd4 : d.length ≤ 4)
    (hdall : ∀ c ∈ d, isDigitC c = true)
    (hgall : ∀ c ∈ g, (isDigitC c || c == ',') = true)
    (hg : g = [] ∨ ∃ g', g = ',' :: g')
    (hsep : sep = [] ∨ sep = [' '])
    (hu : u ∈ safeUnits)
    (hq : ∀ c ∈ q, isDigitC c = false ∧ c ≠ ']') :
    rule1Matches (p ++ (d ++ (g ++ (sep ++ (u ++ q))))) =
      [(p.length, p.length + (d.length + g.length + sep.length + u.length))] ∧
    sliceM (p ++ (d ++ (g ++ (sep ++ (u ++ q)))))
      (p.length, p.length + (d.length + g.length + sep.length + u.length)) =
      d ++ (g ++ (sep ++ u)) :=
  ⟨rule1_isolated p d g sep u q hp hpLast hd1 hd4 hdall hgall hg hsep hu hq,
   slice_isolated p d g sep u q⟩

/-- C1 witness: on the specification's example input the scanner produces
exactly one match, on offsets 10 to 20, whose matched text is 1500 bytes,
categorized Number/Unit. -/
theorem C1_witness :
    rule1Matches "Processed 1500 bytes total".toList = [(10, 20)] ∧
    sliceM "Processed 1500 bytes total".toList (10, 20) = "1500 bytes".toList ∧
    typeOf "1500 bytes".toList = "Number/Unit" := by
  have h := C1_amended_isolated_occurrence "Processed ".toList ['1', '5', '0', '0']
    [] [' '] ['b', 'y', 't', 'e', 's'] " total".toList
    (by decide) (by decide) (by decide) (by decide) (by decide) (by decide)
    (by simp) (by simp) (by simp [safeUnits]) (by decide)
  have heq : "Processed 1500 bytes total".toList =
      "Processed ".toList ++ (['1', '5', '0', '0'] ++ ([] ++ ([' '] ++
        (['b', 'y', 't', 'e', 's'] ++ " total".toList)))) := by decide
  refine ⟨?_, ?_, by decide⟩
  · rw [heq, h.1]
    decide
  · rw [heq]
    have h2 := h.2
    rw [show ("Processed ".toList.length,
        "Processed ".toList.length + (['1', '5', '0', '0'].length + List.length [] +
          [' '].length + ['b', 'y', 't', 'e', 's'].length)) = ((10 : Nat), (20 : Nat))
      by decide] at h2
    rw [h2]
    decide

/-- C2: the bracketed phrase produces no match at all, and in general Rule 1
never produces a match whose start is directly preceded by an opening bracket
or whose end is followed by a closing bracket before any opening bracket. -/
theorem C2_bracket_exemption :
    (rule1Matches "[1500 bytes]".toList = []) ∧
    ∀ (t : List Char) (m : Nat × Nat), m ∈ rule1Matches t →
      (m.1 = 0 ∨ t[m.1 - 1]? ≠ some '[') ∧
      ∀ c ∈ (t.drop m.2).takeWhile (fun c => c != '['), c ≠ ']' := by
  refine ⟨by decide, ?_⟩
  intro t m hm
  exact rule1_match_lookaround t m hm

/-- C2 witness: the general lookaround property applied to the single match
of the unbracketed input 1500 bytes. -/
theorem C2_witness :
    ((0, 10) ∈ rule1Matches "1500 bytes".toList) ∧
    ((((0, 10) : Nat × Nat).1 = 0 ∨
        "1500 bytes".toList[((0, 10) : Nat × Nat).1 - 1]? ≠ some '[') ∧
      ∀ c ∈ ("1500 bytes".toList.drop ((0, 10) : Nat × Nat).2).takeWhile
        (fun c => c != '['), c ≠ ']') :=
  ⟨by decide, C2_bracket_exemption.2 "1500 bytes".toList (0, 10) (by decide)⟩

/-- C3: on each of the four literal tokens as whole input, the Rule-2 search
produces exactly one match whose matched text is the token itself, and the
path-and-line token is categorized Number/Unit since its text contains
neither line nor row. -/
theorem C3_rule2_tokens :
    (rule2Matches "src/main.rs:42".toList = [(0, 14)] ∧
      sliceM "src/main.rs:42".toList (0, 14) = "src/main.rs:42".toList ∧
      typeOf "src/main.rs:42".toList = "Number/Unit" ∧
      hasSub "src/main.rs:42".toList ['l', 'i', 'n', 'e'] = false ∧
      hasSub "src/main.rs:42".toList ['r', 'o', 'w'] = false) ∧
    (rule2Matches "foo_bar()".toList = [(0, 9)] ∧
      sliceM "foo_bar()".toList (0, 9) = "foo_bar()".toList) ∧
    (rule2Matches "unwrap()".toList = [(0, 8)] ∧
      sliceM "unwrap()".toList (0, 8) = "unwrap()".toList) ∧
    (rule2Matches "prost::".toList = [(0, 7)] ∧
      sliceM "prost::".toList (0, 7) = "prost::".toList) := by
  decide

/-- C4, counterexample: the Rule-2 match on the input arrow.rs:42 has matched
text containing row as a substring but not as a word, and the program labels
it Line/Reference while the claim's word-of-row reading predicts
Number/Unit. -/
theorem C4_counterexample :
    rule2Matches "arrow.rs:42".toList = [(0, 11)] ∧
    typeOf (sliceM "arrow.rs:42".toList (0, 11)) = "Line/Reference" ∧
    claimedCategory (sliceM "arrow.rs:42".toList (0, 11)) = "Number/Unit" := by
  decide

/-- C4 (amended): every row of the report, whichever rule produced its match,
carries the category Line/Reference exactly when the matched substring
contains the substring line or the substring row, and Number/Unit
otherwise. -/
theorem C4_amended_substring_categorization (t : List Char)
    (r : String × List Char × List Char) (hr : r ∈ tableRows t) :
    r.1 = specCategory r.2.1 := by
  simp only [tableRows, List.mem_map] at hr
  obtain ⟨m, _, rfl⟩ := hr
  rfl

/-- C4 witness: the amended categorization applied to the report row of the
input 5 rows, a Rule-1 match labeled Line/Reference. -/
theorem C4_witness :
    ("Line/Reference", "5 row".toList, "5 rows...".toList).1 =
      specCategory ("Line/Reference", "5 row".toList, "5 rows...".toList).2.1 :=
  C4_amended_substring_categorization "5 rows".toList
    ("Line/Reference", "5 row".toList, "5 rows...".toList) (by decide)

/-- C5: the rendered context cell is exactly the specification's pipeline —
window of thirty characters each side clamped to the text, newlines to
spaces, strip, truncate to 120, ellipsis appended — so the part before the
ellipsis never exceeds 120 characters and every cell ends with the ellipsis;
and every report row carries the cell computed from its match's offsets. -/
theorem C5_context_window (t : List Char) (a b : Nat) :
    (contextCell t a b = specContext t a b) ∧
    (∃ core, contextCell t a b = core ++ ['.', '.', '.'] ∧ core.length ≤ 120) ∧
    (tableRows t = (allIssues t).map
      (fun m => (typeOf (sliceM t m), sliceM t m, contextCell t m.1 m.2))) := by
  refine ⟨?_, ⟨_, rfl, ?_⟩, rfl⟩
  · simp [contextCell, specContext, List.drop_take]
  · exact List.length_take_le 120 _

/-- C6: when neither rule finds any match, the program prints exactly the
single success-styled clean message and nothing else. -/
theorem C6_clean_output (t : List Char) (h : allIssues t = []) :
    mainOut t = [OutItem.styled cleanMsg "bold green"] := by
  simp [mainOut, h]

/-- C6 witness: the clean path on a concrete match-free input. -/
theorem C6_witness :
    allIssues "hello".toList = [] ∧
    mainOut "hello".toList = [OutItem.styled cleanMsg "bold green"] :=
  ⟨by decide, C6_clean_output "hello".toList (by decide)⟩

/-- C7: a completed scan always exits with code zero, whether clean or with
findings; an argument count other than one prints the usage message and exits
with code one; and with exactly one argument the usage message is never
printed, whatever the file read returns. -/
theorem C7_exit_codes :
    (∀ (pa txt : String) (readF : String → Except String String),
      readF pa = Except.ok txt → program [pa] readF = (0, mainOut txt.toList)) ∧
    (∀ (args : List String) (readF : String → Except String String),
      args.length ≠ 1 →
        program args readF = (1, [OutItem.styled usageMsg "bold"])) ∧
    (∀ (pa : String) (readF : String → Except String String),
      OutItem.styled usageMsg "bold" ∉ (program [pa] readF).2) := by
  have husage : ∀ t : List Char, OutItem.styled usageMsg "bold" ∉ mainOut t := by
    intro t hmem
    simp only [mainOut] at hmem
    split at hmem <;> simp [usageMsg, cleanMsg] at hmem
  refine ⟨?_, ?_, ?_⟩
  · intro pa txt readF h
    simp [program, h]
  · intro args readF h
    match args with
    | [] => rfl
    | [a] => simp at h
    | a :: b :: bs => rfl
  · intro pa readF
    simp only [program]
    cases hfa : readF pa with
    | ok txt => exact husage txt.toList
    | error e =>
      intro hmem
      simp at hmem

/-- C7 witness: the three exit-code facts at concrete invocations. -/
theorem C7_witness :
    program ["f"] (fun _ => Except.ok "hi") = (0, mainOut "hi".toList) ∧
    program [] (fun _ => Except.ok "hi") = (1, [OutItem.styled usageMsg "bold"]) ∧
    OutItem.styled usageMsg "bold" ∉ (program ["f"] (fun _ => Except.ok "hi")).2 :=
  ⟨C7_exit_codes.1 "f" "hi" _ rfl,
   C7_exit_codes.2.1 [] _ (by decide),
   C7_exit_codes.2.2 "f" _⟩

/-- C8: a failing file read propagates — the process exits nonzero carrying
only the diagnostic, with no scan output — and once a text is loaded the scan
itself cannot fail: it always yields either the clean message or a table and
a nonzero-count summary. -/
theorem C8_load_failure :
    (∀ (pa e : String) (readF : String → Except String String),
      readF pa = Except.error e → program [pa] readF = (1, [OutItem.traceback e])) ∧
    (∀ t : List Char, mainOut t = [OutItem.styled cleanMsg "bold green"] ∨
      ∃ n rows, n ≠ 0 ∧ mainOut t =
        [OutItem.table "Hallucination Alerts 🔥" rows,
         OutItem.styled (summaryMsg n) "bold red"]) := by
  constructor
  · intro pa e readF h
    simp [program, h]
  · intro t
    by_cases hi : (allIssues t).isEmpty
    · left
      simp [mainOut, hi]
    · right
      refine ⟨(allIssues t).length, tableRows t, ?_, ?_⟩
      · simp only [List.isEmpty_iff] at hi
        simpa using fun hx => hi (List.length_eq_zero.mp hx)
      · simp [mainOut, hi]

/-- C8 witness: a concrete failing read aborts with the diagnostic and no
scan output, and a concrete loaded text yields the clean shape. -/
theorem C8_witness :
    program ["f"] (fun _ => Except.error "No such file") =
      (1, [OutItem.traceback "No such file"]) ∧
    (mainOut "hello".toList = [OutItem.styled cleanMsg "bold green"] ∨
      ∃ n rows, n ≠ 0 ∧ mainOut "hello".toList =
        [OutItem.table "Hallucination Alerts 🔥" rows,
         OutItem.styled (summaryMsg n) "bold red"]) :=
  ⟨C8_load_failure.1 "f" "No such file" _ rfl, C8_load_failure.2 "hello".toList⟩

/-- C9: the bare s unit alternative makes Rule 1 match a digit run followed
by a space and any text beginning with the letter s, capturing only the
digits, the space and the single letter s. -/
theorem C9_bare_s_unit (p d w : List Char)
    (hp : ∀ c ∈ p, isDigitC c = false) (hpLast : p.getLast? ≠ some '[')
    (hd1 : d ≠ []) (hd4 : d.length ≤ 4)
    (hdall : ∀ c ∈ d, isDigitC c = true)
    (hw : ∀ c ∈ w, isDigitC c = false ∧ c ≠ ']') :
    rule1Matches (p ++ (d ++ ([] ++ ([' '] ++ (['s'] ++ w))))) =
      [(p.length, p.length + (d.length + 2))] ∧
    sliceM (p ++ (d ++ ([] ++ ([' '] ++ (['s'] ++ w)))))
      (p.length, p.length + (d.length + 2)) = d ++ ([' '] ++ ['s']) := by
  have h1 := rule1_isolated p d [] [' '] ['s'] w hp hpLast hd1 hd4 hdall
    (by simp) (by simp) (by simp) (by simp [safeUnits]) hw
  have h2 := slice_isolated p d [] [' '] ['s'] w
  have harith : d.length + ([] : List Char).length + [' '].length + ['s'].length =
      d.length + 2 := by simp
  rw [harith] at h1 h2
  refine ⟨h1, ?_⟩
  simpa using h2

/-- C9 witness: on the input took 10 seconds here the scanner produces the
single match 10 s, capturing the single letter s of seconds. -/
theorem C9_witness :
    rule1Matches "took 10 seconds here".toList = [(5, 9)] ∧
    sliceM "took 10 seconds here".toList (5, 9) = "10 s".toList := by
  have h := C9_bare_s_unit "took ".toList ['1', '0'] "econds here".toList
    (by decide) (by decide) (by decide) (by decide) (by decide) (by decide)
  have heq : "took 10 seconds here".toList =
      "took ".toList ++ (['1', '0'] ++ ([] ++ ([' '] ++
        (['s'] ++ "econds here".toList)))) := by decide
  rw [heq]
  constructor
  · rw [h.1]
    decide
  · have h2 := h.2
    rw [show ("took ".toList.length, "took ".toList.length + (['1', '0'].length + 2)) =
      ((5 : Nat), (9 : Nat)) by decide] at h2
    rw [h2]
    decide

/-- C10: the rows alternative is unreachable — on any isolated occurrence
whose unit text is rows the produced match ends at the letter w, its matched
text ending in row, because the row alternative precedes rows and the
trailing lookahead decides identically after both; on the input 5 rows the
single match is 5 row, categorized Line/Reference. -/
theorem C10_rows_unreachable :
    (∀ (p d sep q' : List Char),
      (∀ c ∈ p, isDigitC c = false) → p.getLast? ≠ some '[' →
      d ≠ [] → d.length ≤ 4 → (∀ c ∈ d, isDigitC c = true) →
      (sep = [] ∨ sep = [' ']) →
      (∀ c ∈ q', isDigitC c = false ∧ c ≠ ']') →
      rule1Matches (p ++ (d ++ ([] ++ (sep ++ (['r', 'o', 'w', 's'] ++ q'))))) =
        [(p.length, p.length + (d.length + sep.length + 3))] ∧
      sliceM (p ++ (d ++ ([] ++ (sep ++ (['r', 'o', 'w', 's'] ++ q')))))
        (p.length, p.length + (d.length + sep.length + 3)) =
        d ++ (sep ++ ['r', 'o', 'w'])) ∧
    (rule1Matches "5 rows".toList = [(0, 5)] ∧
      sliceM "5 rows".toList (0, 5) = "5 row".toList ∧
      typeOf (sliceM "5 rows".toList (0, 5)) = "Line/Reference") := by
  constructor
  · intro p d sep q' hp hpLast hd1 hd4 hdall hsep hq'
    have hsplit : ['r', 'o', 'w', 's'] ++ q' = ['r', 'o', 'w'] ++ ('s' :: q') := rfl
    have hq2 : ∀ c ∈ ('s' :: q'), isDigitC c = false ∧ c ≠ ']' := by
      intro c hc
      rcases List.mem_cons.mp hc with rfl | hc'
      · exact ⟨by decide, by decide⟩
      · exact hq' c hc'
    have h1 := rule1_isolated p d [] sep ['r', 'o', 'w'] ('s' :: q') hp hpLast hd1
      hd4 hdall (by simp) (by simp) hsep (by simp [safeUnits]) hq2
    have h2 := slice_isolated p d [] sep ['r', 'o', 'w'] ('s' :: q')
    have harith : d.length + ([] : List Char).length + sep.length + ['r', 'o', 'w'].length =
        d.length + sep.length + 3 := by simp
    rw [harith] at h1 h2
    rw [hsplit]
    refine ⟨h1, ?_⟩
    simpa using h2
  · decide

/-- C10 witness: the general rows-unreachable fact applied to the input
5 rows itself. -/
theorem C10_witness :
    rule1Matches ([] ++ (['5'] ++ ([] ++ ([' '] ++ (['r', 'o', 'w', 's'] ++ []))))) =
      [(List.length ([] : List Char), List.length ([] : List Char) +
        (['5'].length + [' '].length + 3))] ∧
    sliceM ([] ++ (['5'] ++ ([] ++ ([' '] ++ (['r', 'o', 'w', 's'] ++ [])))))
      (List.length ([] : List Char), List.length ([] : List Char) +
        (['5'].length + [' '].length + 3)) = ['5'] ++ ([' '] ++ ['r', 'o', 'w']) :=
  C10_rows_unreachable.1 [] ['5'] [' '] []
    (by decide) (by decide) (by decide) (by decide) (by decide) (by simp) (by decide)

end Audit
